import Mathlib

/-!
Verification of the eslint-plugin-rules-for-qwik rule set.

The program under study registers four ESLint rules.  Each rule receives
ESTree syntax nodes from the host traversal and decides whether to report a
diagnostic.  We embed the relevant ESTree node shapes as an inductive type
and each rule callback as a function on nodes.  JavaScript property access
on `undefined`/`null` throws a `TypeError`; we model every computation that
can throw in the `Except Unit` monad, where `.error ()` stands for a thrown
exception escaping the rule callback.  `.ok b` means the callback returned
normally, with `b = true` exactly when it called `context.report` (each
callback reports at most once per invocation).
-/

namespace QwikRules

/-- Scalar values carried by ESTree `Literal` nodes (`node.value`). -/
inductive JsValue where
  | str (s : String)
  | num (n : Int)
  | bool (b : Bool)
  | null
deriving DecidableEq, Repr

/-- The subset of ESTree node shapes inspected by the four rules.
`nullRef` models a `null`/`undefined` reference sitting in a child slot
(array elision, absent initializer); `other` models any further node kind,
distinguished only by its `type` tag string, whose children the rules never
read. -/
inductive Node where
  | objectExpression (properties : List Node)
  | arrayExpression (elements : List Node)
  | property (key : Node) (value : Node)
  | spreadElement (argument : Node)
  | literal (value : JsValue)
  | identifier (name : String)
  | objectPattern (properties : List Node)
  | awaitExpression (argument : Node)
  | callExpression (callee : Node) (arguments : List Node) (typeParameters : Bool)
  | arrowFunctionExpression (params : List Node)
  | functionExpression (params : List Node)
  | functionDeclaration (id : Node) (params : List Node)
  | variableDeclaration (declarations : List Node)
  | variableDeclarator (id : Node) (init : Node)
  | exportNamedDeclaration (declaration : Node)
  | importDeclaration (source : Node)
  | nullRef
  | other (kind : String)
deriving Repr

/-- Result of a rule computation: `.error ()` models a thrown JavaScript
exception, `.ok v` a normal return. -/
abbrev JsRes (α : Type) := Except Unit α

/-- JavaScript `Array.prototype.some` with a possibly-throwing callback: scans left to
right, short-circuits on the first `true`, and propagates a thrown
exception. -/
def jsSome {α : Type} (f : α → JsRes Bool) : List α → JsRes Bool
  | [] => .ok false
  | x :: xs =>
    match f x with
    | .error e => .error e
    | .ok true => .ok true
    | .ok false => jsSome f xs

/-- JavaScript `Array.prototype.find` with a possibly-throwing callback: returns the
first element on which the callback yields `true`, `none` when there is no
such element, and propagates a thrown exception. -/
def jsFind {α : Type} (f : α → JsRes Bool) : List α → JsRes (Option α)
  | [] => .ok none
  | x :: xs =>
    match f x with
    | .error e => .error e
    | .ok true => .ok (some x)
    | .ok false => jsFind f xs

/-- The callback `prop => prop.key.type === 'Identifier' && prop.key.name === name`
used by every `.find(...)` in `hasRequiredConditions` and
`conditionsArrayHasRequired` (src/unnamed/part_001 lines 123-124, 134-135,
158-159, 165-166, 172-173, 184-185, 195-196, 205-206).  When `prop` is not
a `Property` node (for example a `SpreadElement` produced by an object
spread `{ ...base }`), `prop.key` is `undefined` and reading `.type` throws
a `TypeError`; likewise when `prop.key` is a null reference. -/
def keyNamePred (name : String) (prop : Node) : JsRes Bool :=
  match prop with
  | .property (.identifier n) _ => .ok (decide (n = name))
  | .property .nullRef _ => .error ()
  | .property _ _ => .ok false
  | _ => .error ()

/-- The per-condition callback of the two `.some(...)` scans inside
`conditionsArrayHasRequired` (lines 121-130 and 132-141): the condition
must be an `ObjectExpression` whose first `field`-keyed property has a
`Literal` value equal to `name`.  A `null` element (`!condition`) and a
non-object element yield `false`. -/
def conditionFieldIs (name : String) (condition : Node) : JsRes Bool :=
  match condition with
  | .nullRef => .ok false
  | .objectExpression props =>
    match jsFind (keyNamePred "field") props with
    | .error e => .error e
    | .ok (some (.property _ (.literal lv))) => .ok (decide (lv = JsValue.str name))
    | .ok _ => .ok false
  | _ => .ok false

/-- The function `conditionsArrayHasRequired(conditions)` (lines 117-144) applied to the
`elements` array of an `ArrayExpression` (both call sites pass
`....value.elements`, so the `Array.isArray` guard of line 118 always
passes).  Both field scans are computed before the conjunction, exactly as
in the source. -/
def conditionsArrayHasRequired (conditions : List Node) : JsRes Bool :=
  match jsSome (conditionFieldIs "status") conditions with
  | .error e => .error e
  | .ok hasStatus =>
    match jsSome (conditionFieldIs "dental_laboratory") conditions with
    | .error e => .error e
    | .ok hasDental => .ok (hasStatus && hasDental)

/-- The per-group callback of `groupsProperty.value.elements.some(...)`
(lines 191-218): the group must be an `ObjectExpression` whose
`conjunction` property holds the literal `"AND"` and whose `conditions`
property holds an `ArrayExpression` satisfying
`conditionsArrayHasRequired`. -/
def groupOk (group : Node) : JsRes Bool :=
  match group with
  | .nullRef => .ok false
  | .objectExpression gprops =>
    match jsFind (keyNamePred "conjunction") gprops with
    | .error e => .error e
    | .ok (some (.property _ (.literal lv))) =>
      if lv = JsValue.str "AND" then
        match jsFind (keyNamePred "conditions") gprops with
        | .error e => .error e
        | .ok (some (.property _ (.arrayExpression elems))) =>
          conditionsArrayHasRequired elems
        | .ok _ => .ok false
      else .ok false
    | .ok _ => .ok false
  | _ => .ok false

/-- The `groups` part of the filter-level check (lines 183-218): look up
the `groups` property of the filter; unless it holds an `ArrayExpression`,
return `false`; otherwise scan its elements with `groupOk`. -/
def groupsBranch (props : List Node) : JsRes Bool :=
  match jsFind (keyNamePred "groups") props with
  | .error e => .error e
  | .ok (some (.property _ (.arrayExpression groups))) => jsSome groupOk groups
  | .ok _ => .ok false

/-- The filter-level part of `hasRequiredConditions` (lines 171-218),
operating on the query filter literal `filterProperty.value`: first try the
top-level `conditions` array (short-circuit on success), then scan `groups`
for a satisfying `AND` group (`groupsBranch`).  A non-object input degrades
to `false` (line 155 guard of the enclosing function). -/
def isCompliant (filter : Node) : JsRes Bool :=
  match filter with
  | .objectExpression props =>
    match jsFind (keyNamePred "conditions") props with
    | .error e => .error e
    | .ok cp =>
      match
        (match cp with
         | some (.property _ (.arrayExpression elems)) => conditionsArrayHasRequired elems
         | _ => .ok false) with
      | .error e => .error e
      | .ok true => .ok true
      | .ok false => groupsBranch props
  | _ => .ok false

/-- The function `hasRequiredConditions(node)` (lines 153-219): descend from the
entity-query object through `__args` and `filter`, requiring an
`ObjectExpression` at each step, then run the filter-level check
`isCompliant`.  Any missing or malformed step returns `false`. -/
def hasRequiredConditions (node : Node) : JsRes Bool :=
  match node with
  | .objectExpression props =>
    match jsFind (keyNamePred "__args") props with
    | .error e => .error e
    | .ok (some (.property _ (.objectExpression argsProps))) =>
      match jsFind (keyNamePred "filter") argsProps with
      | .error e => .error e
      | .ok (some (.property _ fv)) =>
        match fv with
        | .objectExpression _ => isCompliant fv
        | _ => .ok false
      | .ok _ => .ok false
    | .ok _ => .ok false
  | _ => .ok false

/-! ### Well-formedness

The spec's data model (section 3) describes an Object Literal as an
"ordered set of key→value properties, keys unique per object".  `WF`
formalises that universe: every member of an object's property list is a
genuine `Property` node with a non-null key, the names of its
identifier-keyed properties are pairwise distinct, and the same holds
recursively below object and array nodes.  All other node kinds are leaves
for the validator, which never descends into them. -/

/-- A property's key slot is a real node (reading `.type` on it cannot
throw). -/
def keyOk : Node → Bool
  | .nullRef => false
  | _ => true

/-- Names of the identifier-keyed properties of an object's property
list. -/
def identKeyNames (props : List Node) : List String :=
  props.filterMap fun p =>
    match p with
    | .property (.identifier n) _ => some n
    | _ => none

/-- Pairwise distinctness of a list of names. -/
def distinctNames : List String → Bool
  | [] => true
  | x :: xs => !(xs.contains x) && distinctNames xs

mutual

/-- Well-formed node: object literals have plain properties with distinct
identifier keys, recursively. -/
def WF : Node → Bool
  | .objectExpression props => WFProps props && distinctNames (identKeyNames props)
  | .arrayExpression elems => WFList elems
  | _ => true

/-- Well-formed property list of an object literal. -/
def WFProps : List Node → Bool
  | [] => true
  | .property key v :: ps => keyOk key && WF v && WFProps ps
  | _ :: _ => false

/-- Well-formed element list of an array literal. -/
def WFList : List Node → Bool
  | [] => true
  | x :: xs => WF x && WFList xs

end

/-! ### Specification-side definitions

These definitions follow the wording of the spec (sections 3, 4.1, 4.2):
compliance is an existential over condition sets, a condition set matches a
field name when *some* element is an Object Literal *with* a `field`
property holding that literal value, and a group contributes its
`conditions` array when its `conjunction` property is the scalar literal
`"AND"`. -/

/-- Pure structural test: `p` is a property whose key is the plain
identifier `name` and whose value satisfies `f` (spec 4.1,
`isNamedProperty` combined with a check on the value). -/
def keyedMatch (name : String) (f : Node → Bool) (p : Node) : Bool :=
  match p with
  | .property (.identifier n) v => decide (n = name) && f v
  | _ => false

/-- Pure structural test: the node is a scalar literal whose value is the
string `s` (spec 4.1, `literalEquals`). -/
def valIsLiteralStr (s : String) : Node → Bool
  | .literal lv => decide (lv = JsValue.str s)
  | _ => false

/-- The node is an Array Literal whose element list satisfies `f`. -/
def valIsArrayWith (f : List Node → Bool) : Node → Bool
  | .arrayExpression elems => f elems
  | _ => false

/-- Spec 4.2 step 4, per field name: some element of the condition set is
an Object Literal with a `field` property whose literal value equals
`name`. -/
def specCondHasField (name : String) (c : Node) : Bool :=
  match c with
  | .objectExpression props => props.any (keyedMatch "field" (valIsLiteralStr name))
  | _ => false

/-- Spec 4.2 step 4 (`conditionsSatisfyRequirement`): both required field
names are named by some (possibly different) element of the set. -/
def specCondSetOK (elems : List Node) : Bool :=
  elems.any (specCondHasField "status") && elems.any (specCondHasField "dental_laboratory")

/-- Spec 4.2 step 5, per group: the group is an Object Literal whose
`conjunction` property is the scalar literal `"AND"` and whose `conditions`
property is an Array Literal satisfying step 4. -/
def specGroupGives (g : Node) : Bool :=
  match g with
  | .objectExpression gprops =>
    gprops.any (keyedMatch "conjunction" (valIsLiteralStr "AND")) &&
      gprops.any (keyedMatch "conditions" (valIsArrayWith specCondSetOK))
  | _ => false

/-- The spec's compliance invariant (section 3): there exists at least one
condition set — the filter's own top-level `conditions` array, or the
`conditions` array of some group in `groups` whose `conjunction` equals
`"AND"` — naming both required fields.  A non-object input is not
compliant (spec 4.2 step 1). -/
def specIsCompliant (filter : Node) : Bool :=
  match filter with
  | .objectExpression props =>
    props.any (keyedMatch "conditions" (valIsArrayWith specCondSetOK)) ||
      props.any (keyedMatch "groups" (valIsArrayWith fun gs => gs.any specGroupGives))
  | _ => false

/-- Pure version of the `find` callbacks: `p` is a property keyed by the
plain identifier `name`. -/
def isIdentKeyNamed (name : String) (p : Node) : Bool :=
  match p with
  | .property (.identifier n) _ => decide (n = name)
  | _ => false

/-- Test that `p` is a property node whose key slot holds a real node; on such nodes
the unguarded `find` callbacks cannot throw. -/
def isPlainProp : Node → Bool
  | .property key _ => keyOk key
  | _ => false

/-- Apply a value predicate to the result of a property lookup: `false`
when nothing (or a non-property) was found. -/
def optPropVal (f : Node → Bool) : Option Node → Bool
  | some (.property _ v) => f v
  | _ => false

/-- Value of the first property of `props` keyed by the plain identifier
`k`, when it exists.  Under the spec's unique-keys data model this is "the"
`k` property of the object. -/
def lookupVal (k : String) (props : List Node) : Option Node :=
  match props.find? (isIdentKeyNamed k) with
  | some (.property _ v) => some v
  | _ => none

/-- Spec 4.4, entity-query rule: the Query Filter Literal is extracted from
the entity-query object by descending the conventional path
`__args.filter`; a missing or non-object intermediate step means no filter
is found. -/
def extractFilter (entityQueryVal : Node) : Option Node :=
  match entityQueryVal with
  | .objectExpression props =>
    match lookupVal "__args" props with
    | some (.objectExpression argsProps) => lookupVal "filter" argsProps
    | _ => none
  | _ => none

/-- Spec-side verdict for a whole entity-query object: extract the filter
along `__args.filter` and apply the compliance invariant; a failed
extraction is non-compliance. -/
def specHasRequired (v : Node) : Bool :=
  match extractFilter v with
  | some f => specIsCompliant f
  | none => false

/-! ### Rule callbacks -/

/-- The `Property` visitor of `require-entity-query-conditions`
(src/unnamed/part_001 lines 226-235): when the node is a property keyed by
the identifier `entityQuery` (`isEntityQuery`, lines 104-110) and its value
is an `ObjectExpression`, report exactly when `hasRequiredConditions`
fails.  The returned boolean is whether the single diagnostic was
reported. -/
def propertyHandler (node : Node) : JsRes Bool :=
  match node with
  | .nullRef => .error ()
  | .property key value =>
    match key with
    | .nullRef => .error ()
    | .identifier n =>
      if n = "entityQuery" then
        match value with
        | .objectExpression _ =>
          match hasRequiredConditions value with
          | .error e => .error e
          | .ok c => .ok (!c)
        | _ => .ok false
      else .ok false
    | _ => .ok false
  | _ => .ok false

/-- The callback `prop => prop.key && prop.key.name === 'entityQuery'` used
by the `VariableDeclarator` visitor (lines 245 and 257-259).  Unlike
`keyNamePred` it guards `prop.key` before reading `.name`, so it never
throws; a non-identifier key has no `.name` and yields `false`. -/
def propKeyNameIsGuarded (name : String) (prop : Node) : Bool :=
  match prop with
  | .property (.identifier n) _ => decide (n = name)
  | _ => false

/-- The `VariableDeclarator` visitor of `require-entity-query-conditions`
(lines 241-270): fires on `const { entityQuery, ... } = await call({
entityQuery: ..., ... })` shapes — an object-pattern binding that
destructures `entityQuery`, initialized by an awaited call with a first
argument that is an object literal; the `entityQuery` property of that
argument is then checked with `hasRequiredConditions`. -/
def variableDeclaratorHandler (node : Node) : JsRes Bool :=
  match node with
  | .nullRef => .error ()
  | .variableDeclarator id init =>
    match id with
    | .objectPattern patProps =>
      if patProps.any (propKeyNameIsGuarded "entityQuery") then
        match init with
        | .awaitExpression arg =>
          match arg with
          | .callExpression _ (queryArg :: _) _ =>
            match queryArg with
            | .objectExpression qprops =>
              match qprops.find? (propKeyNameIsGuarded "entityQuery") with
              | some (.property _ v) =>
                match hasRequiredConditions v with
                | .error e => .error e
                | .ok c => .ok (!c)
              | _ => .ok false
            | _ => .ok false
          | _ => .ok false
        | _ => .ok false
      else .ok false
    | _ => .ok false
  | _ => .ok false

/-- JavaScript `s.endsWith(suffix)`: the character sequence of `suffix` is
a suffix of that of `s`. -/
def jsEndsWith (s suffix : String) : Bool :=
  suffix.data.isSuffixOf s.data

/-- The `ImportDeclaration` visitor of `no-direct-scss-imports`
(src/index.js lines 25-36): reads `node.source.value` and reports when the
path ends with `.scss` or `.css`.  A node without a string-literal source
would make the `.endsWith` call throw. -/
def importDeclarationHandler (node : Node) : JsRes Bool :=
  match node with
  | .importDeclaration (.literal (.str s)) =>
    .ok (jsEndsWith s ".scss" || jsEndsWith s ".css")
  | _ => .error ()

/-- The `CallExpression` visitor of `require-generic-props`
(src/unnamed/part_001 lines 288-306): on a call whose callee is the
identifier `component$`, report when the first argument is an
`ArrowFunctionExpression` with a non-empty parameter list and the call has
no `typeParameters`.  The boolean field of `callExpression` records whether
`node.typeParameters` is present. -/
def genericPropsHandler (node : Node) : JsRes Bool :=
  match node with
  | .nullRef => .error ()
  | .callExpression .nullRef _ _ => .error ()
  | .callExpression (.identifier n) args tps =>
    if n = "component$" then
      match args with
      | .arrowFunctionExpression params :: _ =>
        if params.length > 0 then .ok (!tps) else .ok false
      | _ => .ok false
    else .ok false
  | .callExpression _ _ _ => .ok false
  | _ => .ok false

/-- The claimed trigger condition for `require-generic-props`, following
the spec's wording (section 4.4): the callee is `component$`, the call
lacks explicit type arguments, and its function-expression argument (first
argument, arrow or not) declares at least one parameter. -/
def claimGenericShouldReport : Node → Bool
  | .callExpression (.identifier n) args tps =>
    decide (n = "component$") && !tps &&
      (match args with
       | .arrowFunctionExpression ps :: _ => ps.length > 0
       | .functionExpression ps :: _ => ps.length > 0
       | _ => false)
  | _ => false

/-- The spec's Function Expression node shape (section 3) covers both
concrete ESTree function-expression kinds. -/
def specIsFunctionExpression : Node → Bool
  | .arrowFunctionExpression _ => true
  | .functionExpression _ => true
  | _ => false

/-- The per-declaration callback of `require-document-head`
(src/unnamed/part_001 lines 71-75): `declaration.id.name === 'head' &&
declaration.init && declaration.init.type === 'ArrowFunctionExpression'`.
A list element that is not a declarator has no `.id`, so reading `.name`
would throw. -/
def isHeadArrowDecl : Node → JsRes Bool
  | .variableDeclarator .nullRef _ => .error ()
  | .variableDeclarator (.identifier n) init =>
    .ok (decide (n = "head") &&
      (match init with
       | .arrowFunctionExpression _ => true
       | _ => false))
  | .variableDeclarator _ _ => .ok false
  | _ => .error ()

/-- The per-statement callback of the `sourceCode.ast.body.some(...)` scan
(lines 67-76): an `ExportNamedDeclaration` whose declaration has a
`declarations` list (a `VariableDeclaration`) containing a `head` binding
initialized with an arrow function.  Any other statement kind has no
`.declaration.declarations` and yields `false`. -/
def bodyElemHasHead : Node → JsRes Bool
  | .nullRef => .error ()
  | .exportNamedDeclaration (.variableDeclaration decls) => jsSome isHeadArrowDecl decls
  | _ => .ok false

/-- The `Program` visitor of `require-document-head` (lines 65-84): scan
the top-level statement list once and report exactly one diagnostic when no
qualifying `head` export is found. -/
def programHandler (body : List Node) : JsRes Bool :=
  match jsSome bodyElemHasHead body with
  | .error e => .error e
  | .ok has => .ok (!has)

/-- A declaration-list entry whose processing by `isHeadArrowDecl` cannot
throw: a declarator with a non-null binding target. -/
def declWF : Node → Bool
  | .variableDeclarator .nullRef _ => false
  | .variableDeclarator _ _ => true
  | _ => false

/-- A top-level statement whose processing by `programHandler` cannot
throw. -/
def stmtWF : Node → Bool
  | .exportNamedDeclaration (.variableDeclaration decls) => decls.all declWF
  | .nullRef => false
  | _ => true

/-- Well-formed top-level statement list for the document-head rule. -/
def bodyWF (body : List Node) : Bool :=
  body.all stmtWF

/-- Spec-side per-declaration test: the declarator binds the name `head` to
an arrow function expression. -/
def specHeadArrowDecl : Node → Bool
  | .variableDeclarator (.identifier nm) (.arrowFunctionExpression _) => decide (nm = "head")
  | _ => false

/-- Spec-side per-statement test: the statement is a named export holding a
variable declaration with a qualifying `head` arrow binding. -/
def specBodyElemHasHead : Node → Bool
  | .exportNamedDeclaration (.variableDeclaration decls) => decls.any specHeadArrowDecl
  | _ => false

/-- Spec-side (amended) presence test: some top-level statement is a named
export binding `head` whose initializer is an arrow function expression. -/
def specHasHeadArrowExport (body : List Node) : Bool :=
  body.any specBodyElemHasHead

/-- Presence test exactly as the claim words it: some top-level statement
is a named export binding `head` whose initializer is a function expression
(of either concrete kind). -/
def specHasHeadFnExport (body : List Node) : Bool :=
  body.any fun n =>
    match n with
    | .exportNamedDeclaration (.variableDeclaration decls) =>
      decls.any fun d =>
        match d with
        | .variableDeclarator (.identifier nm) init =>
          decide (nm = "head") && specIsFunctionExpression init
        | _ => false
    | _ => false

/-! ### The `require-document-head` entry point -/

/-- The first positional options entry of `require-document-head`:
`{ excludedFiles: [...] }`, where the `excludedFiles` key may be absent. -/
structure DocHeadOptions where
  excludedFiles : Option (List String)

/-- Visitor table returned by `create` of `require-document-head`: either
the empty table `{}` (file excluded) or the table with the single `Program`
visitor. -/
inductive DocHeadVisitors where
  | empty
  | withProgram (handler : List Node → JsRes Bool)

/-- The entry point `create(context)` of `require-document-head` (src/unnamed/part_001
lines 48-86).  `compileRegex` abstracts the host's `new RegExp(pattern)`
constructor: it either returns the compiled matcher (to be applied to the
file path via `.test`, match-any over the pattern list) or throws a
`SyntaxError` on invalid pattern syntax, which `create` does not catch. -/
def documentHeadCreate (compileRegex : String → Except Unit (String → Bool))
    (options : Option DocHeadOptions) (filePath : String) :
    Except Unit DocHeadVisitors :=
  let excludedFiles :=
    match options with
    | some o => o.excludedFiles.getD []
    | none => []
  match jsSome
      (fun pat =>
        match compileRegex pat with
        | .error e => .error e
        | .ok re => .ok (re filePath))
      excludedFiles with
  | .error e => .error e
  | .ok true => .ok .empty
  | .ok false => .ok (.withProgram programHandler)

/-! ### Concrete nodes used by witnesses and counterexamples -/

/-- Condition object `{ field: 'status' }`. -/
def condStatusNode : Node :=
  .objectExpression [.property (.identifier "field") (.literal (.str "status"))]

/-- Condition object `{ field: 'dental_laboratory' }`. -/
def condDentalNode : Node :=
  .objectExpression [.property (.identifier "field") (.literal (.str "dental_laboratory"))]

/-- Compliant filter `{ conditions: [{field:'status'},
{field:'dental_laboratory'}] }` (spec section 8, scenario 1). -/
def goodFilterNode : Node :=
  .objectExpression
    [.property (.identifier "conditions") (.arrayExpression [condStatusNode, condDentalNode])]

/-- Property list of the compliant entity-query object
`{ __args: { filter: goodFilterNode } }`. -/
def goodEntityQueryProps : List Node :=
  [.property (.identifier "__args")
    (.objectExpression [.property (.identifier "filter") goodFilterNode])]

/-- Compliant entity-query object `{ __args: { filter: goodFilterNode } }`. -/
def goodEntityQueryNode : Node :=
  .objectExpression goodEntityQueryProps

/-- Entity-query object `{}` with no `__args` at all: extraction fails. -/
def emptyEntityQueryNode : Node := .objectExpression []

/-- Entity-query object literal containing an object spread, `{ ...base }`:
the shape on which the validator crashes. -/
def spreadEntityQueryNode : Node := .objectExpression [.spreadElement (.identifier "base")]

/-- The call `component$(function (props) { ... })` without type
arguments: its first argument is a non-arrow function expression with one
parameter. -/
def genericPropsCxNode : Node :=
  .callExpression (.identifier "component$") [.functionExpression [.identifier "props"]] false

/-- Top-level statement list `export const head = function () { ... };`:
a `head` export binding whose initializer is a non-arrow function
expression. -/
def docHeadCxBody : List Node :=
  [.exportNamedDeclaration (.variableDeclaration
    [.variableDeclarator (.identifier "head") (.functionExpression [])])]

/-- Top-level statement list `export const head = () => ({ ... });`. -/
def docHeadGoodBody : List Node :=
  [.exportNamedDeclaration (.variableDeclaration
    [.variableDeclarator (.identifier "head") (.arrowFunctionExpression [])])]

/-- A regex compiler whose every pattern compiles to a matcher accepting
every path (used to exercise the exclusion branch). -/
def wRT : String → Except Unit (String → Bool) :=
  fun _ => .ok fun _ => true

/-- A regex compiler on which every pattern fails to compile, as
`new RegExp` does on syntactically invalid patterns such as a glob. -/
def wBadRT : String → Except Unit (String → Bool) :=
  fun _ => .error ()

/-! ### Helper lemmas -/

theorem jsSome_congr {α : Type} (f : α → JsRes Bool) (g : α → Bool) (l : List α)
    (h : ∀ x ∈ l, f x = .ok (g x)) : jsSome f l = .ok (l.any g) := by
  induction l with
  | nil => rfl
  | cons x xs ih =>
    have hx := h x (List.mem_cons_self x xs)
    have ih' := ih fun y hy => h y (List.mem_cons_of_mem x hy)
    simp only [jsSome, hx, List.any_cons]
    cases hgx : g x <;> simp [hgx, ih']

theorem jsFind_congr {α : Type} (f : α → JsRes Bool) (g : α → Bool) (l : List α)
    (h : ∀ x ∈ l, f x = .ok (g x)) : jsFind f l = .ok (l.find? g) := by
  induction l with
  | nil => rfl
  | cons x xs ih =>
    have hx := h x (List.mem_cons_self x xs)
    have ih' := ih fun y hy => h y (List.mem_cons_of_mem x hy)
    simp only [jsFind, hx]
    cases hgx : g x <;> simp [hgx, ih', List.find?_cons]

theorem keyNamePred_eq_ok (k : String) (p : Node) (h : isPlainProp p = true) :
    keyNamePred k p = .ok (isIdentKeyNamed k p) := by
  cases p
  case property key v =>
    cases key <;> simp_all [isPlainProp, keyOk, keyNamePred, isIdentKeyNamed]
  all_goals simp_all [isPlainProp]

theorem WFProps_cons (key v : Node) (ps : List Node)
    (h : WFProps (.property key v :: ps) = true) :
    keyOk key = true ∧ WF v = true ∧ WFProps ps = true := by
  simp only [WFProps, Bool.and_eq_true] at h
  exact ⟨h.1.1, h.1.2, h.2⟩

theorem WFProps_all_plain (props : List Node) (h : WFProps props = true) :
    ∀ p ∈ props, isPlainProp p = true := by
  induction props with
  | nil => intro p hp; cases hp
  | cons q ps ih =>
    intro p hp
    cases q
    case property key v =>
      obtain ⟨hk, _, hps⟩ := WFProps_cons key v ps h
      cases hp with
      | head => simpa [isPlainProp] using hk
      | tail _ hp' => exact ih hps p hp'
    all_goals (exfalso; simp [WFProps] at h)

theorem WFProps_value (props : List Node) (key v : Node)
    (h : WFProps props = true) (hm : Node.property key v ∈ props) : WF v = true := by
  induction props with
  | nil => cases hm
  | cons q ps ih =>
    cases hm with
    | head => exact (WFProps_cons key v ps h).2.1
    | tail _ hm' =>
      cases q
      case property k2 v2 => exact ih (WFProps_cons k2 v2 ps h).2.2 hm'
      all_goals (exfalso; simp [WFProps] at h)

theorem WFList_mem (l : List Node) (h : WFList l = true) : ∀ x ∈ l, WF x = true := by
  induction l with
  | nil => intro x hx; cases hx
  | cons y ys ih =>
    intro x hx
    simp only [WFList, Bool.and_eq_true] at h
    cases hx with
    | head => exact h.1
    | tail _ hx' => exact ih h.2 x hx'

theorem jsFind_plainProps (k : String) (props : List Node) (h : WFProps props = true) :
    jsFind (keyNamePred k) props = .ok (props.find? (isIdentKeyNamed k)) :=
  jsFind_congr _ _ props fun p hp => keyNamePred_eq_ok k p (WFProps_all_plain props h p hp)

theorem distinctNames_cons (x : String) (xs : List String)
    (h : distinctNames (x :: xs) = true) : x ∉ xs ∧ distinctNames xs = true := by
  simp only [distinctNames, Bool.and_eq_true, Bool.not_eq_true'] at h
  refine ⟨fun hmem => ?_, h.2⟩
  have hc := h.1
  simp only [List.contains, List.elem_eq_mem, decide_eq_false_iff_not] at hc
  exact hc hmem

theorem any_keyedMatch_not_mem (k : String) (f : Node → Bool) (props : List Node)
    (h : k ∉ identKeyNames props) :
    props.any (keyedMatch k f) = false := by
  induction props with
  | nil => rfl
  | cons p ps ih =>
    rw [List.any_cons]
    cases p
    case property key v =>
      cases key
      case identifier n =>
        have hsplit : ¬(k = n ∨ k ∈ identKeyNames ps) := by
          simpa [identKeyNames, List.filterMap_cons] using h
        push_neg at hsplit
        rw [ih hsplit.2]
        have hne : decide (n = k) = false := by
          simp only [decide_eq_false_iff_not]
          exact fun hh => hsplit.1 hh.symm
        simp [keyedMatch, hne]
      all_goals
        (rw [ih (by simpa [identKeyNames, List.filterMap_cons] using h)]
         simp [keyedMatch])
    all_goals
      (rw [ih (by simpa [identKeyNames, List.filterMap_cons] using h)]
       simp [keyedMatch])

theorem any_keyedMatch_eq (k : String) (f : Node → Bool) (props : List Node)
    (hd : distinctNames (identKeyNames props) = true) :
    props.any (keyedMatch k f) = optPropVal f (props.find? (isIdentKeyNamed k)) := by
  induction props with
  | nil => rfl
  | cons p ps ih =>
    rw [List.any_cons]
    cases p
    case property key v =>
      cases key
      case identifier n =>
        have hnames : identKeyNames (Node.property (.identifier n) v :: ps)
            = n :: identKeyNames ps := by
          simp [identKeyNames, List.filterMap_cons]
        rw [hnames] at hd
        have hd' := distinctNames_cons n _ hd
        by_cases hnk : n = k
        · subst hnk
          rw [List.find?_cons_of_pos _ (by simp [isIdentKeyNamed])]
          rw [any_keyedMatch_not_mem n f ps hd'.1]
          simp [keyedMatch, optPropVal]
        · rw [List.find?_cons_of_neg _ (by simp [isIdentKeyNamed, hnk])]
          rw [ih hd'.2]
          simp [keyedMatch, hnk]
      all_goals
        (rw [List.find?_cons_of_neg _ (by simp [isIdentKeyNamed])]
         rw [ih (by simpa [identKeyNames, List.filterMap_cons] using hd)]
         simp [keyedMatch])
    all_goals
      (rw [List.find?_cons_of_neg _ (by simp [isIdentKeyNamed])]
       rw [ih (by simpa [identKeyNames, List.filterMap_cons] using hd)]
       simp [keyedMatch])

theorem WF_object_parts (props : List Node) (h : WF (.objectExpression props) = true) :
    WFProps props = true ∧ distinctNames (identKeyNames props) = true := by
  simpa [WF, Bool.and_eq_true] using h

theorem conditionFieldIs_ok (name : String) (c : Node) (h : WF c = true) :
    conditionFieldIs name c = .ok (specCondHasField name c) := by
  cases c <;> try rfl
  case objectExpression props =>
    obtain ⟨h1, h2⟩ := WF_object_parts props h
    simp only [conditionFieldIs, specCondHasField,
      jsFind_plainProps "field" props h1,
      any_keyedMatch_eq "field" (valIsLiteralStr name) props h2]
    cases hf : props.find? (isIdentKeyNamed "field")
    case none => rfl
    case some p =>
      cases p <;> try rfl
      case property key v => cases v <;> rfl

theorem condArr_ok (elems : List Node) (h : WFList elems = true) :
    conditionsArrayHasRequired elems = .ok (specCondSetOK elems) := by
  have hs := jsSome_congr (conditionFieldIs "status") (specCondHasField "status") elems
    fun x hx => conditionFieldIs_ok "status" x (WFList_mem elems h x hx)
  have hd := jsSome_congr (conditionFieldIs "dental_laboratory")
    (specCondHasField "dental_laboratory") elems
    fun x hx => conditionFieldIs_ok "dental_laboratory" x (WFList_mem elems h x hx)
  simp only [conditionsArrayHasRequired, hs, hd, specCondSetOK]

theorem groupOk_ok (g : Node) (h : WF g = true) :
    groupOk g = .ok (specGroupGives g) := by
  cases g <;> try rfl
  case objectExpression gprops =>
    obtain ⟨h1, h2⟩ := WF_object_parts gprops h
    simp only [groupOk, specGroupGives,
      jsFind_plainProps "conjunction" gprops h1,
      any_keyedMatch_eq "conjunction" (valIsLiteralStr "AND") gprops h2,
      any_keyedMatch_eq "conditions" (valIsArrayWith specCondSetOK) gprops h2]
    cases hc : gprops.find? (isIdentKeyNamed "conjunction") with
    | none => rfl
    | some p =>
      cases p <;> try rfl
      next key v =>
        cases v <;> try rfl
        next lv =>
          rw [jsFind_plainProps "conditions" gprops h1]
          rcases eq_or_ne lv (JsValue.str "AND") with hAND | hAND
          · subst hAND
            have hONE : optPropVal (valIsLiteralStr "AND")
                (some (Node.property key (Node.literal (JsValue.str "AND")))) = true := by
              simp [optPropVal, valIsLiteralStr]
            rw [hONE, Bool.true_and]
            cases hcond : gprops.find? (isIdentKeyNamed "conditions") with
            | none => rfl
            | some q =>
              cases q <;> try rfl
              next key2 v2 =>
                cases v2 <;> try rfl
                next elems =>
                  have hWFe : WFList elems = true := by
                    have := WFProps_value gprops key2 _ h1 (List.mem_of_find?_eq_some hcond)
                    simpa [WF] using this
                  exact (condArr_ok elems hWFe).trans (by simp [optPropVal, valIsArrayWith])
          · have hZERO : optPropVal (valIsLiteralStr "AND")
                (some (Node.property key (Node.literal lv))) = false := by
              simp [optPropVal, valIsLiteralStr, hAND]
            rw [hZERO, Bool.false_and]
            exact if_neg hAND

theorem groupsBranch_ok (props : List Node) (h1 : WFProps props = true) :
    groupsBranch props
    = .ok (optPropVal (valIsArrayWith fun gs => gs.any specGroupGives)
        (props.find? (isIdentKeyNamed "groups"))) := by
  simp only [groupsBranch, jsFind_plainProps "groups" props h1]
  cases hg : props.find? (isIdentKeyNamed "groups") with
  | none => rfl
  | some p =>
    cases p <;> try rfl
    next key v =>
      cases v <;> try rfl
      next gs =>
        have hWFgs : WFList gs = true := by
          have := WFProps_value props key _ h1 (List.mem_of_find?_eq_some hg)
          simpa [WF] using this
        exact (jsSome_congr groupOk specGroupGives gs
          fun g hgm => groupOk_ok g (WFList_mem gs hWFgs g hgm)).trans
          (by simp [optPropVal, valIsArrayWith])

theorem isCompliant_ok (filter : Node) (h : WF filter = true) :
    isCompliant filter = .ok (specIsCompliant filter) := by
  cases filter <;> try rfl
  case objectExpression props =>
    obtain ⟨h1, h2⟩ := WF_object_parts props h
    simp only [isCompliant, specIsCompliant,
      jsFind_plainProps "conditions" props h1,
      any_keyedMatch_eq "conditions" (valIsArrayWith specCondSetOK) props h2,
      any_keyedMatch_eq "groups" (valIsArrayWith fun gs => gs.any specGroupGives) props h2]
    cases hc : props.find? (isIdentKeyNamed "conditions") with
    | none =>
      exact (groupsBranch_ok props h1).trans (by simp [optPropVal])
    | some p =>
      have hmem := List.mem_of_find?_eq_some hc
      cases p <;> try exact (groupsBranch_ok props h1).trans (by simp [optPropVal, valIsArrayWith])
      next key v =>
        cases v <;> try exact (groupsBranch_ok props h1).trans (by simp [optPropVal, valIsArrayWith])
        next elems =>
          have hWFe : WFList elems = true := by
            have := WFProps_value props key _ h1 hmem
            simpa [WF] using this
          simp only [condArr_ok elems hWFe, optPropVal, valIsArrayWith]
          cases hb : specCondSetOK elems with
          | true => simp
          | false =>
            simp only [Bool.false_or]
            exact groupsBranch_ok props h1

theorem hasRequired_ok (v : Node) (h : WF v = true) :
    hasRequiredConditions v = .ok (specHasRequired v) := by
  cases v <;> try rfl
  case objectExpression props =>
    obtain ⟨h1, _⟩ := WF_object_parts props h
    simp only [hasRequiredConditions, specHasRequired, extractFilter, lookupVal,
      jsFind_plainProps "__args" props h1]
    cases ha : props.find? (isIdentKeyNamed "__args") with
    | none => rfl
    | some p =>
      cases p <;> try rfl
      next key pv =>
        cases pv <;> try rfl
        next argsProps =>
          have hWFa : WF (.objectExpression argsProps) = true :=
            WFProps_value props key _ h1 (List.mem_of_find?_eq_some ha)
          obtain ⟨ha1, _⟩ := WF_object_parts argsProps hWFa
          simp only [jsFind_plainProps "filter" argsProps ha1]
          cases hf : argsProps.find? (isIdentKeyNamed "filter") with
          | none => rfl
          | some q =>
            cases q <;> try rfl
            next key2 fv =>
              have hWFf : WF fv = true :=
                WFProps_value argsProps key2 fv ha1 (List.mem_of_find?_eq_some hf)
              cases fv <;> simp [isCompliant_ok _ hWFf, specIsCompliant]

theorem specHasRequired_true_iff (v : Node) :
    specHasRequired v = true ↔
      ∃ f, extractFilter v = some f ∧ specIsCompliant f = true := by
  unfold specHasRequired
  cases he : extractFilter v <;> simp [he]

theorem isHeadArrowDecl_ok (d : Node) (h : declWF d = true) :
    isHeadArrowDecl d = .ok (specHeadArrowDecl d) := by
  cases d <;> try exact Bool.noConfusion h
  next id init =>
    cases id <;> try exact Bool.noConfusion h
    all_goals cases init <;> simp [isHeadArrowDecl, specHeadArrowDecl]

theorem bodyElemHasHead_ok (n : Node) (h : stmtWF n = true) :
    bodyElemHasHead n = .ok (specBodyElemHasHead n) := by
  cases n <;> try rfl
  case nullRef => exact absurd h (by simp [stmtWF])
  case exportNamedDeclaration decl =>
    cases decl <;> try rfl
    case variableDeclaration decls =>
      have hall : ∀ d ∈ decls, isHeadArrowDecl d = .ok (specHeadArrowDecl d) := by
        intro d hd
        exact isHeadArrowDecl_ok d (by
          have := (List.all_eq_true.mp (by simpa [stmtWF] using h)) d hd
          simpa using this)
      exact jsSome_congr isHeadArrowDecl specHeadArrowDecl decls hall

theorem programHandler_ok (body : List Node) (h : bodyWF body = true) :
    programHandler body = .ok (!specHasHeadArrowExport body) := by
  have hall : ∀ n ∈ body, bodyElemHasHead n = .ok (specBodyElemHasHead n) := by
    intro n hn
    exact bodyElemHasHead_ok n (by
      have := (List.all_eq_true.mp (by simpa [bodyWF] using h)) n hn
      simpa using this)
  simp only [programHandler, specHasHeadArrowExport,
    jsSome_congr bodyElemHasHead specBodyElemHasHead body hall]

/-! ### Claim theorems -/

/-- C1: over the spec's data model of Object Literals (plain properties,
unique identifier keys, formalised by `WF`), the filter-level validator
judges a Query Filter Literal compliant exactly when some condition set —
the filter's own top-level `conditions` array, or the `conditions` array of
some group in `groups` whose `conjunction` is the scalar literal `"AND"` —
contains an element naming `status` and an element naming
`dental_laboratory` (`specIsCompliant`). -/
theorem isCompliant_matches_spec (filter : Node) (h : WF filter = true) :
    isCompliant filter = .ok (specIsCompliant filter) :=
  isCompliant_ok filter h

/-- Witness for C1 at the concrete compliant filter of spec scenario 1. -/
theorem isCompliant_matches_spec_witness :
    WF goodFilterNode = true ∧ specIsCompliant goodFilterNode = true ∧
      isCompliant goodFilterNode = .ok (specIsCompliant goodFilterNode) :=
  ⟨rfl, rfl, isCompliant_matches_spec goodFilterNode rfl⟩

/-- C2 is false of the code: on an entity-query object literal containing
an object spread (`{ ...base }`), both `hasRequiredConditions` and
`conditionsArrayHasRequired` evaluate `prop.key.type` with `prop.key`
undefined and throw a `TypeError` instead of returning `false`. -/
theorem validator_throws_on_spread :
    hasRequiredConditions spreadEntityQueryNode = .error () ∧
      conditionsArrayHasRequired [spreadEntityQueryNode] = .error () :=
  ⟨rfl, rfl⟩

/-- C3: both entity-query visitors report (exactly one diagnostic) on a
triggering node precisely when the filter extracted along
`entityQuery.__args.filter` is absent, malformed, or non-compliant. -/
theorem entityQuery_reports_iff :
    (∀ props : List Node, WF (Node.objectExpression props) = true →
      (propertyHandler (.property (.identifier "entityQuery") (.objectExpression props))
          = .ok true ↔
        ¬ ∃ f, extractFilter (Node.objectExpression props) = some f ∧
          specIsCompliant f = true)) ∧
    (∀ (patProps : List Node) (callee : Node) (tps : Bool)
        (qprops restArgs : List Node) (pk v : Node),
      patProps.any (propKeyNameIsGuarded "entityQuery") = true →
      qprops.find? (propKeyNameIsGuarded "entityQuery") = some (.property pk v) →
      WF v = true →
      (variableDeclaratorHandler
          (.variableDeclarator (.objectPattern patProps)
            (.awaitExpression (.callExpression callee (.objectExpression qprops :: restArgs) tps)))
          = .ok true ↔
        ¬ ∃ f, extractFilter v = some f ∧ specIsCompliant f = true)) := by
  constructor
  · intro props hWF
    have hreq := hasRequired_ok _ hWF
    simp only [propertyHandler, if_pos rfl, if_true, hreq, Except.ok.injEq, Bool.not_eq_true']
    rw [Bool.eq_false_iff]
    exact not_congr (specHasRequired_true_iff _)
  · intro patProps callee tps qprops restArgs pk v hpat hfind hWF
    have hreq := hasRequired_ok v hWF
    simp only [variableDeclaratorHandler, hpat, if_pos rfl, if_true, hfind, hreq,
      Except.ok.injEq, Bool.not_eq_true']
    rw [Bool.eq_false_iff]
    exact not_congr (specHasRequired_true_iff _)

/-- Witness for C3: the compliant entity query is not reported by the
`Property` visitor; the entity query with no `__args` is reported by the
`VariableDeclarator` visitor. -/
theorem entityQuery_reports_iff_witness :
    propertyHandler (.property (.identifier "entityQuery") goodEntityQueryNode) ≠ .ok true ∧
    variableDeclaratorHandler
        (.variableDeclarator
          (.objectPattern [.property (.identifier "entityQuery") (.identifier "x")])
          (.awaitExpression (.callExpression (.identifier "runQuery")
            [.objectExpression [.property (.identifier "entityQuery") emptyEntityQueryNode]]
            false)))
      = .ok true := by
  constructor
  · intro hrep
    exact (entityQuery_reports_iff.1 goodEntityQueryProps rfl).mp hrep
      ⟨goodFilterNode, rfl, rfl⟩
  · exact (entityQuery_reports_iff.2
      [.property (.identifier "entityQuery") (.identifier "x")]
      (.identifier "runQuery") false
      [.property (.identifier "entityQuery") emptyEntityQueryNode] []
      (.identifier "entityQuery") emptyEntityQueryNode rfl rfl rfl).mpr
      (by rintro ⟨f, hf, -⟩; exact Option.noConfusion hf)

/-- C4 as stated is false of the code: the call
`component$(function (props) { ... })` without type arguments has a
function-expression argument declaring one parameter, so the claim demands
a diagnostic, but the rule only accepts arrow functions and stays silent. -/
theorem genericProps_claim_counterexample :
    genericPropsHandler genericPropsCxNode = .ok false ∧
      claimGenericShouldReport genericPropsCxNode = true :=
  ⟨rfl, rfl⟩

/-- C4 amended: on a call whose callee is the identifier `component$`, the
rule reports exactly when the call lacks explicit type arguments and its
first argument is an arrow function expression declaring at least one
parameter. -/
theorem genericProps_reports_iff (args : List Node) (tps : Bool) :
    genericPropsHandler (.callExpression (.identifier "component$") args tps) = .ok true ↔
      (tps = false ∧ ∃ ps rest, args = Node.arrowFunctionExpression ps :: rest ∧
        0 < ps.length) := by
  simp only [genericPropsHandler, if_pos rfl]
  cases args with
  | nil => simp
  | cons a rest =>
    cases a <;> try simp
    case arrowFunctionExpression ps =>
      by_cases hlen : ps.length > 0
      · rw [if_pos hlen]
        cases tps <;> simp [hlen, Nat.pos_iff_ne_zero]
      · rw [if_neg hlen]
        simp [hlen]

/-- C5 as stated is false of the code: the file
`export const head = function () { ... };` has a named export binding
`head` whose initializer is a function expression, so the claim demands
silence, but the rule accepts only arrow functions and reports. -/
theorem docHead_claim_counterexample :
    programHandler docHeadCxBody = .ok true ∧
      specHasHeadFnExport docHeadCxBody = true :=
  ⟨rfl, rfl⟩

/-- C5 amended: on a non-excluded file with a well-formed top-level
statement list, the rule reports exactly one diagnostic precisely when no
named export binding `head` has an arrow-function-expression initializer. -/
theorem docHead_reports_iff_amended (body : List Node) (h : bodyWF body = true) :
    programHandler body = .ok (!specHasHeadArrowExport body) :=
  programHandler_ok body h

/-- Witness for C5 amended: a file exporting `head` as an arrow function is
not reported. -/
theorem docHead_reports_iff_amended_witness :
    bodyWF docHeadGoodBody = true ∧ programHandler docHeadGoodBody = .ok false :=
  ⟨rfl, (docHead_reports_iff_amended docHeadGoodBody rfl).trans rfl⟩

/-- C6: with an empty or absent pattern list, nothing is excluded and
`create` returns the table with the `Program` visitor; when some configured
pattern matches the file path, `create` returns the empty visitor table, so
no diagnostic can be reported even when no `head` export exists. -/
theorem docHead_exclusion (rt : String → Except Unit (String → Bool)) (path : String) :
    documentHeadCreate rt none path = .ok (.withProgram programHandler) ∧
    documentHeadCreate rt (some ⟨none⟩) path = .ok (.withProgram programHandler) ∧
    documentHeadCreate rt (some ⟨some []⟩) path = .ok (.withProgram programHandler) ∧
    (∀ pats : List String,
      (∀ p ∈ pats, ∃ m, rt p = .ok m) →
      (∃ p ∈ pats, ∃ m, rt p = .ok m ∧ m path = true) →
      documentHeadCreate rt (some ⟨some pats⟩) path = .ok .empty) := by
  refine ⟨rfl, rfl, rfl, ?_⟩
  intro pats hall hmatch
  have hsome : jsSome
      (fun pat =>
        match rt pat with
        | .error e => .error e
        | .ok re => .ok (re path)) pats
      = .ok (pats.any fun pat =>
          match rt pat with
          | .ok re => re path
          | .error _ => false) := by
    apply jsSome_congr
    intro p hp
    obtain ⟨m, hm⟩ := hall p hp
    rw [hm]
  have hany : (pats.any fun pat =>
      match rt pat with
      | .ok re => re path
      | .error _ => false) = true := by
    rw [List.any_eq_true]
    obtain ⟨p, hp, m, hm, hmp⟩ := hmatch
    refine ⟨p, hp, ?_⟩
    rw [hm]
    exact hmp
  simp only [documentHeadCreate, Option.getD_some, hsome, hany]

/-- Witness for C6: a path matched by a configured pattern yields the empty
visitor table. -/
theorem docHead_exclusion_witness :
    documentHeadCreate wRT (some ⟨some ["route"]⟩) "src/routes/index.tsx" = .ok .empty :=
  (docHead_exclusion wRT "src/routes/index.tsx").2.2.2 ["route"]
    (fun _ _ => ⟨fun _ => true, rfl⟩)
    ⟨"route", List.mem_cons_self "route" [], fun _ => true, rfl, rfl⟩

/-- C7: the stylesheet-import rule reports on an import declaration exactly
when the imported path's character sequence ends in `.scss` or `.css`. -/
theorem scss_import_reported_iff (s : String) :
    importDeclarationHandler (.importDeclaration (.literal (.str s))) = .ok true ↔
      (".scss".data <:+ s.data ∨ ".css".data <:+ s.data) := by
  simp [importDeclarationHandler, jsEndsWith, Bool.or_eq_true, List.isSuffixOf_iff_suffix]

/-- C8: the compliance check is a pure function of the literal: running it
a second time on the same literal yields the same verdict as the first
run. -/
theorem isCompliant_idempotent (n : Node) :
    ((isCompliant n).bind fun a => (isCompliant n).map fun b => a == b)
      = (isCompliant n).map fun _ => true := by
  cases h : isCompliant n <;> simp [h, Except.bind, Except.map]

/-- C9: a `head` export initialized with a non-arrow function expression,
or an exported function declaration named `head`, does not satisfy the
rule: the missing-DocumentHead diagnostic is still reported. -/
theorem docHead_nonarrow_still_reported (ps qs : List Node) :
    programHandler [.exportNamedDeclaration (.variableDeclaration
        [.variableDeclarator (.identifier "head") (.functionExpression ps)])] = .ok true ∧
    programHandler [.exportNamedDeclaration
        (.functionDeclaration (.identifier "head") qs)] = .ok true :=
  ⟨rfl, rfl⟩

/-- C10: exclusion patterns are compiled one by one as regular expressions
and tested against the file path; when a pattern fails to compile (as
`new RegExp` does on invalid syntax such as a glob), the exception escapes
`create` before any visitor table is returned. -/
theorem docHead_invalid_regex_throws (rt : String → Except Unit (String → Bool))
    (p : String) (rest : List String) (path : String) (h : rt p = .error ()) :
    documentHeadCreate rt (some ⟨some (p :: rest)⟩) path = .error () := by
  simp only [documentHeadCreate, Option.getD_some, jsSome, h]

/-- Witness for C10: a single non-compiling pattern makes `create` throw. -/
theorem docHead_invalid_regex_throws_witness :
    documentHeadCreate wBadRT (some ⟨some ["**/x"]⟩) "src/routes/index.tsx" = .error () :=
  docHead_invalid_regex_throws wBadRT "**/x" [] "src/routes/index.tsx" rfl

end QwikRules
